import Mathlib

/-!
Shallow embedding of the marketDB ingestion core
(`services/ingestion/src/lunarcrush_ingestor.py`), together with proofs
about its behaviour.  Python strings are modelled as lists of characters,
JSON scalar values as a small inductive type, machine floats as rationals,
and the stateful ingestion loop as explicit state passing.
-/

namespace MarketDB

/-- Characters of a Python string. -/
abbrev PyStr := List Char

/-- A JSON-ish scalar value as it appears in LunarCrush response fields. -/
inductive PyValue where
  | num (q : ℚ)
  | str (s : PyStr)
deriving DecidableEq

/-- Python exceptions relevant to the embedded fragment. -/
inductive PyErr where
  | valueError
deriving DecidableEq

/-- Digits of a decimal literal folded to a natural number. -/
def digitsToNat (l : List Char) : ℕ :=
  l.foldl (fun a c => a * 10 + (c.toNat - 48)) 0

/-- Unsigned decimal part of Python `float(str)`: digits with an optional
fractional part.  (The modelled subset omits exponents, `inf`/`nan` and
surrounding whitespace, none of which occur in the claims.) -/
def parseUFloat (s : PyStr) : Option ℚ :=
  match s.span Char.isDigit with
  | (intPart, rest) =>
    match rest with
    | [] => if intPart.isEmpty then none else some (digitsToNat intPart)
    | c :: frac =>
      if c = '.' ∧ frac.all Char.isDigit ∧ (¬intPart.isEmpty ∨ ¬frac.isEmpty) then
        some ((digitsToNat intPart : ℚ) + (digitsToNat frac : ℚ) / (10 ^ frac.length))
      else none

/-- Python `float(str)`: optional sign then an unsigned decimal. -/
def parseFloat (s : PyStr) : Option ℚ :=
  match s with
  | '-' :: rest => (parseUFloat rest).map (fun q => -q)
  | '+' :: rest => parseUFloat rest
  | _ => parseUFloat s

/-- Python `float(v)`: numbers pass through, strings are parsed,
anything unparsable raises `ValueError`. -/
def pyFloat : PyValue → Except PyErr ℚ
  | .num q => .ok q
  | .str s =>
    match parseFloat s with
    | some q => .ok q
    | none => .error .valueError

/-- Truncation toward zero, as Python `int()` applied to a float. -/
def ratTrunc (q : ℚ) : ℤ := if q < 0 then ⌈q⌉ else ⌊q⌋

/-- Python `int(str)`: optional sign then digits. -/
def parseInt (s : PyStr) : Option ℤ :=
  match s with
  | '-' :: rest =>
    if rest.isEmpty ∨ ¬rest.all Char.isDigit then none
    else some (-(digitsToNat rest : ℤ))
  | _ =>
    if s.isEmpty ∨ ¬s.all Char.isDigit then none
    else some (digitsToNat s : ℤ)

/-- Python `int(v)` on a scalar value. -/
def pyInt : PyValue → Except PyErr ℤ
  | .num q => .ok (ratTrunc q)
  | .str s =>
    match parseInt s with
    | some z => .ok z
    | none => .error .valueError

/-- `isinstance(v, (int, float))` gate used by the sentiment loop:
numeric values pass through, everything else is rejected. -/
def toNum : PyValue → Option ℚ
  | .num q => some q
  | .str _ => none

/-- Executable floor of a rational (Euclidean division of numerator by
denominator). -/
def ratFloor (q : ℚ) : ℤ := q.num / (q.den : ℤ)

/-- Round-half-to-even to an integer, mirroring Python `round`. -/
def roundHalfEven (x : ℚ) : ℤ :=
  if x - ratFloor x < 1/2 then ratFloor x
  else if 1/2 < x - ratFloor x then ratFloor x + 1
  else if ratFloor x % 2 = 0 then ratFloor x else ratFloor x + 1

/-- Python `round(x, 2)`: round to two decimal places. -/
def pyRound2 (x : ℚ) : ℚ := (roundHalfEven (x * 100) : ℚ) / 100

/-- One iteration of the `for platform, sentiment in sentiment_data.items()`
loop: a numeric value is added to `total_sentiment` and bumps
`total_weight`; anything else is skipped.  The addition here is exact, as
it is in the program whenever the accumulated values are Python ints
(arbitrary-precision); `sentStepFP` below gives the binary64 semantics the
program executes when the values are floats. -/
def sentStep (a : ℚ × ℕ) (p : PyStr × PyValue) : ℚ × ℕ :=
  match toNum p.2 with
  | some q => (a.1 + q, a.2 + 1)
  | none => a

/-- `LunarCrushIngestor._calculate_dominant_sentiment` (lines 271-290):
empty breakdown yields the neutral 3.0; otherwise the loop accumulates the
numeric values, and a positive weight yields `round(avg/20 + 1, 2)`.
Exact-arithmetic semantics, faithful for int-valued breakdowns; see
`_calculate_dominant_sentiment_fp` for the binary64 semantics of
float-valued ones. -/
def _calculate_dominant_sentiment (sentiment_data : List (PyStr × PyValue)) : ℚ :=
  if sentiment_data.isEmpty then 3
  else
    let acc := sentiment_data.foldl sentStep (0, 0)
    if 0 < acc.2 then pyRound2 ((acc.1 / acc.2) / 20 + 1)
    else 3

/-- The numeric values of a breakdown, in iteration order. -/
def numVals (sentiment_data : List (PyStr × PyValue)) : List ℚ :=
  sentiment_data.filterMap (fun p => toNum p.2)

lemma sentFold_eq (l : List (PyStr × PyValue)) (a : ℚ × ℕ) :
    l.foldl sentStep a = (a.1 + (numVals l).sum, a.2 + (numVals l).length) := by
  induction l generalizing a with
  | nil => simp [numVals]
  | cons p rest ih =>
    cases hv : toNum p.2 with
    | none =>
      simp only [List.foldl_cons, sentStep, hv, numVals, List.filterMap_cons, ih]
    | some q =>
      simp only [List.foldl_cons, sentStep, hv, numVals, List.filterMap_cons, ih]
      refine Prod.ext ?_ ?_
      · simp only [List.sum_cons]; ring
      · simp only [List.length_cons]; omega

/-- Closed form of the sentiment aggregation in terms of its numeric values. -/
lemma dominant_sentiment_eq (l : List (PyStr × PyValue)) :
    _calculate_dominant_sentiment l =
      if (numVals l).length = 0 then 3
      else pyRound2 (((numVals l).sum / ((numVals l).length : ℚ)) / 20 + 1) := by
  unfold _calculate_dominant_sentiment
  rcases l with _ | ⟨p, rest⟩
  · simp [numVals]
  · simp only [List.isEmpty_cons, if_neg Bool.false_ne_true, sentFold_eq]
    rcases Nat.eq_zero_or_pos (numVals (p :: rest)).length with h | h
    · simp [h]
    · simp [Nat.ne_of_gt h, h]

lemma ratFloor_eq (q : ℚ) : ratFloor q = ⌊q⌋ := Rat.floor_def.symm

lemma floor_le_roundHalfEven (x : ℚ) : ratFloor x ≤ roundHalfEven x := by
  unfold roundHalfEven; split_ifs <;> omega

lemma roundHalfEven_le_floor_add_one (x : ℚ) : roundHalfEven x ≤ ratFloor x + 1 := by
  unfold roundHalfEven; split_ifs <;> omega

lemma le_roundHalfEven (n : ℤ) (x : ℚ) (h : (n : ℚ) ≤ x) : n ≤ roundHalfEven x := by
  have h1 : n ≤ ratFloor x := by
    rw [ratFloor_eq]; exact Int.le_floor.mpr h
  exact le_trans h1 (floor_le_roundHalfEven x)

lemma roundHalfEven_le (n : ℤ) (x : ℚ) (h : x ≤ (n : ℚ)) : roundHalfEven x ≤ n := by
  have hf : ratFloor x ≤ n := by
    rw [ratFloor_eq]
    have := Int.floor_mono h
    simpa using this
  rcases lt_or_eq_of_le hf with hlt | heq
  · exact le_trans (roundHalfEven_le_floor_add_one x) (by omega)
  · have hx : x - (ratFloor x : ℚ) < 1/2 := by
      have : ((ratFloor x : ℤ) : ℚ) = (n : ℚ) := by exact_mod_cast heq
      rw [this]; linarith
    unfold roundHalfEven
    rw [if_pos hx]
    omega

lemma roundHalfEven_intCast (n : ℤ) : roundHalfEven (n : ℚ) = n := by
  unfold roundHalfEven
  have hf : ratFloor (n : ℚ) = n := by
    rw [ratFloor_eq]; exact Int.floor_intCast n
  rw [hf]
  have hz : (n : ℚ) - (n : ℚ) = 0 := sub_self _
  rw [hz]
  norm_num

/-- When `x` is exact at two decimals, rounding returns it unchanged. -/
lemma pyRound2_exact (x : ℚ) (n : ℤ) (h : x * 100 = (n : ℚ)) : pyRound2 x = x := by
  unfold pyRound2
  rw [h, roundHalfEven_intCast, ← h]
  exact mul_div_cancel_right₀ x (by norm_num)

lemma pyRound2_bounds (x : ℚ) (a b : ℤ) (ha : (a : ℚ) ≤ x) (hb : x ≤ (b : ℚ)) :
    (a : ℚ) ≤ pyRound2 x ∧ pyRound2 x ≤ (b : ℚ) := by
  have h1 : (a * 100 : ℤ) ≤ roundHalfEven (x * 100) :=
    le_roundHalfEven _ _ (by push_cast; linarith)
  have h2 : roundHalfEven (x * 100) ≤ (b * 100 : ℤ) :=
    roundHalfEven_le _ _ (by push_cast; linarith)
  have h1q : ((a * 100 : ℤ) : ℚ) ≤ (roundHalfEven (x * 100) : ℚ) := by exact_mod_cast h1
  have h2q : ((roundHalfEven (x * 100) : ℤ) : ℚ) ≤ ((b * 100 : ℤ) : ℚ) := by exact_mod_cast h2
  unfold pyRound2
  push_cast at h1q h2q
  constructor
  · rw [le_div_iff₀ (by norm_num : (0:ℚ) < 100)]; linarith
  · rw [div_le_iff₀ (by norm_num : (0:ℚ) < 100)]; linarith

/-- C3 counterexample: the aggregation is not always in `[1,5]` — the
single-entry breakdown with value 100 (in the documented 0-100 range)
already yields `100/20 + 1 = 6.0`. -/
theorem dominant_sentiment_exceeds_five :
    _calculate_dominant_sentiment [("tweet".data, PyValue.num 100)] = 6 ∧
    ¬_calculate_dominant_sentiment [("tweet".data, PyValue.num 100)] ≤ 5 := by
  have h1 : numVals [("tweet".data, PyValue.num 100)] = [100] := rfl
  have h2 : _calculate_dominant_sentiment [("tweet".data, PyValue.num 100)] = 6 := by
    rw [dominant_sentiment_eq, h1]
    simp only [List.sum_cons, List.sum_nil, List.length_cons, List.length_nil]
    norm_num
    exact pyRound2_exact 6 600 (by norm_num)
  exact ⟨h2, by rw [h2]; norm_num⟩

/-- C3 (amended): the aggregation result is `round(avg/20 + 1, 2)` without
any clamping; when every numeric value of the breakdown lies in `[0,100]`
the result lies in `[1,6]` (not `[1,5]`), and out-of-range numeric inputs
produce correspondingly out-of-range results. -/
theorem dominant_sentiment_range (l : List (PyStr × PyValue))
    (h : ∀ q ∈ numVals l, 0 ≤ q ∧ q ≤ 100) :
    1 ≤ _calculate_dominant_sentiment l ∧ _calculate_dominant_sentiment l ≤ 6 := by
  rw [dominant_sentiment_eq]
  by_cases hn : (numVals l).length = 0
  · simp only [hn, if_pos rfl]
    norm_num
  · simp only [hn, if_false]
    have hlen : (0 : ℚ) < ((numVals l).length : ℚ) := by
      exact_mod_cast Nat.pos_of_ne_zero hn
    have hsum0 : 0 ≤ (numVals l).sum := List.sum_nonneg (fun q hq => (h q hq).1)
    have hsum100 : (numVals l).sum ≤ ((numVals l).length : ℚ) * 100 := by
      have := List.sum_le_card_nsmul (numVals l) 100 (fun q hq => (h q hq).2)
      simpa [nsmul_eq_mul] using this
    have havg0 : 0 ≤ (numVals l).sum / ((numVals l).length : ℚ) :=
      div_nonneg hsum0 (le_of_lt hlen)
    have havg100 : (numVals l).sum / ((numVals l).length : ℚ) ≤ 100 := by
      rw [div_le_iff₀ hlen]; linarith
    have hx1 : (1 : ℚ) ≤ (numVals l).sum / ((numVals l).length : ℚ) / 20 + 1 := by
      have : 0 ≤ (numVals l).sum / ((numVals l).length : ℚ) / 20 := by positivity
      linarith
    have hx6 : (numVals l).sum / ((numVals l).length : ℚ) / 20 + 1 ≤ 6 := by
      have : (numVals l).sum / ((numVals l).length : ℚ) / 20 ≤ 5 := by
        rw [div_le_iff₀ (by norm_num : (0:ℚ) < 20)]; linarith
      linarith
    have := pyRound2_bounds ((numVals l).sum / ((numVals l).length : ℚ) / 20 + 1) 1 6
      (by push_cast; linarith) (by push_cast; linarith)
    constructor
    · have h1 := this.1; push_cast at h1; linarith
    · have h6 := this.2; push_cast at h6; linarith

/-- Witness for the amended C3 theorem at the breakdown `[(x, 80)]`. -/
theorem dominant_sentiment_range_witness :
    1 ≤ _calculate_dominant_sentiment [("x".data, PyValue.num 80)] ∧
    _calculate_dominant_sentiment [("x".data, PyValue.num 80)] ≤ 6 :=
  dominant_sentiment_range _ (by decide)

/-- C4: the aggregation sums the numeric values of the breakdown, divides
by their count, converts via `avg/20 + 1` and rounds to 2 decimals;
non-numeric entries are skipped from sum and denominator; an empty or
entirely non-numeric breakdown yields 3.0; and the three concrete spec
examples evaluate as stated. -/
theorem dominant_sentiment_formula :
    (∀ l : List (PyStr × PyValue),
      _calculate_dominant_sentiment l =
        if (numVals l).length = 0 then 3
        else pyRound2 ((numVals l).sum / ((numVals l).length : ℚ) / 20 + 1)) ∧
    _calculate_dominant_sentiment [("a".data, PyValue.num 80), ("b".data, PyValue.num 60)] = 4.5 ∧
    _calculate_dominant_sentiment [] = 3 ∧
    _calculate_dominant_sentiment
      [("a".data, PyValue.str "n/a".data), ("b".data, PyValue.num 40)] = 3 := by
  refine ⟨dominant_sentiment_eq, ?_, rfl, ?_⟩
  · have h1 : numVals [("a".data, PyValue.num 80), ("b".data, PyValue.num 60)] = [80, 60] := rfl
    rw [dominant_sentiment_eq, h1]
    simp only [List.sum_cons, List.sum_nil, List.length_cons, List.length_nil]
    norm_num
    rw [pyRound2_exact (9/2) 450 (by norm_num)]
  · have h1 : numVals [("a".data, PyValue.str "n/a".data), ("b".data, PyValue.num 40)] = [40] :=
      rfl
    rw [dominant_sentiment_eq, h1]
    simp only [List.sum_cons, List.sum_nil, List.length_cons, List.length_nil]
    norm_num
    exact pyRound2_exact 3 300 (by norm_num)

/-- C5 (amended): under exact accumulation — the arithmetic the program
performs when the breakdown values are Python ints, whose sums it computes
exactly — the aggregation is order-independent: permuted breakdowns (the
same platform-value pairs in any iteration order) aggregate equally.
Under binary64 float accumulation order-independence fails; see
`dominant_sentiment_order_dependent_fp`. -/
theorem dominant_sentiment_perm_invariant (l₁ l₂ : List (PyStr × PyValue))
    (h : l₁.Perm l₂) :
    _calculate_dominant_sentiment l₁ = _calculate_dominant_sentiment l₂ := by
  have hperm : (numVals l₁).Perm (numVals l₂) := h.filterMap _
  rw [dominant_sentiment_eq, dominant_sentiment_eq, hperm.length_eq, hperm.sum_eq]

/-- Witness for C5 on a two-entry breakdown and its swap. -/
theorem dominant_sentiment_perm_invariant_witness :
    ([("a".data, PyValue.num 80), ("b".data, PyValue.num 60)].Perm
      [("b".data, PyValue.num 60), ("a".data, PyValue.num 80)]) ∧
    _calculate_dominant_sentiment [("a".data, PyValue.num 80), ("b".data, PyValue.num 60)] =
      _calculate_dominant_sentiment [("b".data, PyValue.num 60), ("a".data, PyValue.num 80)] :=
  ⟨by decide, dominant_sentiment_perm_invariant _ _ (by decide)⟩

/-- Round a positive rational to the nearest binary64 double: the doubles
in `[2^e, 2^(e+1))` are the integer multiples of the unit in the last
place `2^(e-52)` (53-bit significand), and IEEE-754 rounds to the nearest
one, ties to even.  (Exponent overflow and subnormal underflow lie far
outside every value these claims touch and are not modelled.) -/
def flPos (q : ℚ) : ℚ :=
  (roundHalfEven (q / 2 ^ (Int.log 2 q - 52)) : ℚ) * 2 ^ (Int.log 2 q - 52)

/-- Round a rational to the nearest binary64 double. -/
def fl (q : ℚ) : ℚ :=
  if q = 0 then 0
  else if q < 0 then -flPos (-q)
  else flPos q

/-- One iteration of the accumulation loop under binary64 semantics: when
the breakdown values are Python floats, `total_sentiment += sentiment`
performs one IEEE double addition, i.e. one rounding per step. -/
def sentStepFP (a : ℚ × ℕ) (p : PyStr × PyValue) : ℚ × ℕ :=
  match toNum p.2 with
  | some q => (fl (a.1 + q), a.2 + 1)
  | none => a

/-- `_calculate_dominant_sentiment` (lines 271-290) under the binary64
semantics the program executes when the breakdown values are floats: the
rounded accumulation, one rounding for each of `total/weight`, `/20` and
`+1`, and the correctly-rounded `round(x, 2)` (exact 2-decimal rounding of
the double's value, then the nearest double to that). -/
def _calculate_dominant_sentiment_fp (sentiment_data : List (PyStr × PyValue)) : ℚ :=
  if sentiment_data.isEmpty then 3
  else
    let acc := sentiment_data.foldl sentStepFP (0, 0)
    if 0 < acc.2 then
      fl (pyRound2 (fl (fl (fl (acc.1 / (acc.2 : ℚ)) / 20) + 1)))
    else 3

lemma fl_zero : fl 0 = 0 := by simp [fl]

lemma fl_of_pos (q : ℚ) (hq : 0 < q) : fl q = flPos q := by
  rw [fl, if_neg (ne_of_gt hq), if_neg (not_lt.mpr (le_of_lt hq))]

lemma int_log_eq_of_bounds (q : ℚ) (e : ℤ) (h1 : (2:ℚ) ^ e ≤ q)
    (h2 : q < 2 ^ (e + 1)) : Int.log 2 q = e := by
  have hq : 0 < q := lt_of_lt_of_le (zpow_pos (by norm_num) e) h1
  have h1a : ((2:ℕ):ℚ) ^ e ≤ q := by exact_mod_cast h1
  have h2a : q < ((2:ℕ):ℚ) ^ (e + 1) := by exact_mod_cast h2
  have hle : e ≤ Int.log 2 q := (Int.zpow_le_iff_le_log (by norm_num) hq).mp h1a
  have hlt : Int.log 2 q < e + 1 := (Int.lt_zpow_iff_log_lt (by norm_num) hq).mp h2a
  omega

lemma ratFloor_eq_of_bounds (x : ℚ) (f : ℤ) (h1 : (f:ℚ) ≤ x) (h2 : x < (f:ℚ) + 1) :
    ratFloor x = f := by
  rw [ratFloor_eq]
  exact Int.floor_eq_iff.mpr ⟨h1, h2⟩

lemma roundHalfEven_of_lt_half (x : ℚ) (f : ℤ) (h1 : (f:ℚ) ≤ x)
    (h2 : x < (f:ℚ) + 1/2) : roundHalfEven x = f := by
  have hf : ratFloor x = f := ratFloor_eq_of_bounds x f h1 (by linarith)
  unfold roundHalfEven
  rw [hf, if_pos (by linarith)]

lemma roundHalfEven_of_gt_half (x : ℚ) (f : ℤ) (h1 : (f:ℚ) + 1/2 < x)
    (h2 : x < (f:ℚ) + 1) : roundHalfEven x = f + 1 := by
  have hf : ratFloor x = f := ratFloor_eq_of_bounds x f (by linarith) h2
  unfold roundHalfEven
  rw [hf, if_neg (by linarith), if_pos (by linarith)]

lemma roundHalfEven_of_half_even (x : ℚ) (f : ℤ) (hx : x = (f:ℚ) + 1/2)
    (he : f % 2 = 0) : roundHalfEven x = f := by
  have hf : ratFloor x = f :=
    ratFloor_eq_of_bounds x f (by rw [hx]; linarith) (by rw [hx]; linarith)
  unfold roundHalfEven
  rw [hf, if_neg (by rw [hx]; linarith), if_neg (by rw [hx]; linarith), if_pos he]

lemma flPos_eval (q u : ℚ) (e m : ℤ) (hu : (2:ℚ) ^ (e - 52) = u)
    (h1 : (2:ℚ) ^ e ≤ q) (h2 : q < 2 ^ (e + 1))
    (hm : roundHalfEven (q / u) = m) : flPos q = (m:ℚ) * u := by
  rw [flPos, int_log_eq_of_bounds q e h1 h2, hu, hm]

lemma fl_ten16 : fl (10000000000000000 : ℚ) = 10000000000000000 := by
  rw [fl_of_pos _ (by norm_num),
    flPos_eval _ 2 53 5000000000000000 (by norm_num) (by norm_num) (by norm_num)
      (roundHalfEven_of_lt_half _ 5000000000000000 (by norm_num) (by norm_num))]
  norm_num

lemma fl_ten16_add_one : fl (10000000000000001 : ℚ) = 10000000000000000 := by
  rw [fl_of_pos _ (by norm_num),
    flPos_eval _ 2 53 5000000000000000 (by norm_num) (by norm_num) (by norm_num)
      (roundHalfEven_of_half_even _ 5000000000000000 (by norm_num) (by decide))]
  norm_num

lemma fl_one : fl (1 : ℚ) = 1 := by
  rw [fl_of_pos _ (by norm_num),
    flPos_eval _ (1/4503599627370496) 0 4503599627370496 (by norm_num) (by norm_num)
      (by norm_num)
      (roundHalfEven_of_lt_half _ 4503599627370496 (by norm_num) (by norm_num))]
  norm_num

lemma fl_one_third : fl (1/3 : ℚ) = 6004799503160661/18014398509481984 := by
  rw [fl_of_pos _ (by norm_num),
    flPos_eval _ (1/18014398509481984) (-2) 6004799503160661 (by norm_num)
      (by norm_num) (by norm_num)
      (roundHalfEven_of_lt_half _ 6004799503160661 (by norm_num) (by norm_num))]
  norm_num

lemma fl_avg_div_twenty :
    fl ((6004799503160661/18014398509481984 : ℚ) / 20) =
      4803839602528529/288230376151711744 := by
  rw [fl_of_pos _ (by norm_num),
    flPos_eval _ (1/288230376151711744) (-6) (4803839602528528 + 1) (by norm_num)
      (by norm_num) (by norm_num)
      (roundHalfEven_of_gt_half _ 4803839602528528 (by norm_num) (by norm_num))]
  norm_num

lemma fl_t3 :
    fl ((4803839602528529/288230376151711744 : ℚ) + 1) =
      1144664905290001/1125899906842624 := by
  rw [fl_of_pos _ (by norm_num),
    flPos_eval _ (1/4503599627370496) 0 4578659621160004 (by norm_num) (by norm_num)
      (by norm_num)
      (roundHalfEven_of_lt_half _ 4578659621160004 (by norm_num) (by norm_num))]
  norm_num

lemma pyRound2_t3 :
    pyRound2 (1144664905290001/1125899906842624 : ℚ) = 51/50 := by
  unfold pyRound2
  rw [roundHalfEven_of_gt_half _ 101 (by norm_num) (by norm_num)]
  norm_num

lemma fl_one_point_02 :
    fl (51/50 : ℚ) = 2296835809958953/2251799813685248 := by
  rw [fl_of_pos _ (by norm_num),
    flPos_eval _ (1/4503599627370496) 0 (4593671619917905 + 1) (by norm_num)
      (by norm_num) (by norm_num)
      (roundHalfEven_of_gt_half _ 4593671619917905 (by norm_num) (by norm_num))]
  norm_num

/-- Float-valued breakdown 1e16, 1, -1e16 in insertion order a, b, c. -/
def fpBreakdownA : List (PyStr × PyValue) :=
  [("a".data, .num 10000000000000000), ("b".data, .num 1),
   ("c".data, .num (-10000000000000000))]

/-- The same platform-value pairs in iteration order a, c, b. -/
def fpBreakdownB : List (PyStr × PyValue) :=
  [("a".data, .num 10000000000000000), ("c".data, .num (-10000000000000000)),
   ("b".data, .num 1)]

lemma fp_result_A : _calculate_dominant_sentiment_fp fpBreakdownA = 1 := by
  unfold _calculate_dominant_sentiment_fp fpBreakdownA
  simp only [List.isEmpty_cons, Bool.false_eq_true, if_false, List.foldl_cons,
    List.foldl_nil, sentStepFP, toNum]
  rw [show (0:ℚ) + 10000000000000000 = 10000000000000000 from by norm_num, fl_ten16,
    show (10000000000000000:ℚ) + 1 = 10000000000000001 from by norm_num,
    fl_ten16_add_one,
    show (10000000000000000:ℚ) + -10000000000000000 = 0 from by norm_num, fl_zero]
  norm_num [fl_zero, fl_one, pyRound2_exact 1 100 (by norm_num)]

lemma fp_result_B :
    _calculate_dominant_sentiment_fp fpBreakdownB =
      2296835809958953/2251799813685248 := by
  unfold _calculate_dominant_sentiment_fp fpBreakdownB
  simp only [List.isEmpty_cons, Bool.false_eq_true, if_false, List.foldl_cons,
    List.foldl_nil, sentStepFP, toNum]
  rw [show (0:ℚ) + 10000000000000000 = 10000000000000000 from by norm_num, fl_ten16,
    show (10000000000000000:ℚ) + -10000000000000000 = 0 from by norm_num, fl_zero,
    show (0:ℚ) + 1 = 1 from by norm_num, fl_one,
    show (1:ℚ) / ((0 + 1 + 1 + 1 : ℕ) : ℚ) = 1/3 from by norm_num,
    fl_one_third, fl_avg_div_twenty, fl_t3, pyRound2_t3, fl_one_point_02]
  norm_num

/-- C5 counterexample: under the binary64 semantics the program executes
for float-valued breakdowns, the aggregation is iteration-order dependent:
the same three platform-value pairs (1e16, 1, -1e16) yield 1.0 in one
order and 1.02 (the double nearest 51/50) in the other, because double
addition is not associative. -/
theorem dominant_sentiment_order_dependent_fp :
    fpBreakdownA.Perm fpBreakdownB ∧
    _calculate_dominant_sentiment_fp fpBreakdownA = 1 ∧
    _calculate_dominant_sentiment_fp fpBreakdownB =
      2296835809958953/2251799813685248 ∧
    _calculate_dominant_sentiment_fp fpBreakdownA ≠
      _calculate_dominant_sentiment_fp fpBreakdownB := by
  refine ⟨?_, fp_result_A, fp_result_B, ?_⟩
  · unfold fpBreakdownA fpBreakdownB
    exact List.Perm.cons _ (List.Perm.swap _ _ _)
  · rw [fp_result_A, fp_result_B]
    norm_num

/-- Market snapshot record as read from the coin endpoint; the fields the
ingestor touches (`price`, `market_cap`, `percent_change_24h`), each
optional. -/
structure MarketData where
  price : Option ℚ := none
  market_cap : Option ℚ := none
  percent_change_24h : Option ℚ := none
deriving DecidableEq

/-- Social post record: the fields `process_and_store_posts` and
`prepare_post_for_embedding` read, each optional (`dict.get`). -/
structure Post where
  id : Option PyStr := none
  title : Option PyStr := none
  body : Option PyStr := none
  sentiment : Option PyValue := none
  post_type : Option PyStr := none
  interactions : Option PyValue := none
  creator_name : Option PyStr := none
  created : Option PyStr := none
deriving DecidableEq

/-- Topic summary payload dict. -/
abbrev TopicData := List (PyStr × PyValue)

/-- `settings.MAX_POSTS_PER_SYMBOL` (config.py line 38). -/
def MAX_POSTS_PER_SYMBOL : ℕ := 100

/-- Outcome of one underlying HTTP round trip: a 2xx response whose JSON
`data` field parsed to a record, or a transport / non-2xx failure (the
latter covers exceptions from `client.get` and `raise_for_status`). -/
inductive HttpAttempt (α : Type) where
  | success (data : α)
  | failure

/-- Body of `fetch_coin_data` for one attempt (lines 43-58): the whole
request sits inside `try`; `httpx.HTTPError` and `Exception` are caught,
logged, and `None` is returned — the coroutine itself never raises. -/
def fetch_coin_data_body : HttpAttempt MarketData → Except PyErr (Option MarketData)
  | .success d => .ok (some d)
  | .failure => .ok none

/-- Body of `fetch_social_posts` for one attempt (lines 63-83): a success
returns `data.get("data", [])[:MAX_POSTS_PER_SYMBOL]`; any error is caught
and `[]` is returned. -/
def fetch_social_posts_body : HttpAttempt (List Post) → Except PyErr (List Post)
  | .success posts => .ok (posts.take MAX_POSTS_PER_SYMBOL)
  | .failure => .ok []

/-- Body of `fetch_topic_summary` for one attempt (lines 88-102): any
error is caught and `None` is returned. -/
def fetch_topic_summary_body : HttpAttempt TopicData → Except PyErr (Option TopicData)
  | .success t => .ok (some t)
  | .failure => .ok none

/-- The tenacity decorator `retry(stop=stop_after_attempt(r+1))`: run the
wrapped coroutine; a normal return passes through unchanged; an exception
consumes one remaining retry and with none left propagates to the caller.
`env i` is the HTTP outcome attempt `i` (0-based) would observe. -/
def retryCall {σ β : Type} (body : σ → Except PyErr β) (env : ℕ → σ) :
    ℕ → ℕ → Except PyErr β
  | 0, i => body (env i)
  | r + 1, i =>
    match body (env i) with
    | .ok b => .ok b
    | .error _ => retryCall body env r (i + 1)

/-- `fetch_coin_data` with its decorator: 3 total attempts (line 40). -/
def fetch_coin_data (env : ℕ → HttpAttempt MarketData) : Except PyErr (Option MarketData) :=
  retryCall fetch_coin_data_body env 2 0

/-- `fetch_social_posts` with its decorator: 3 total attempts (line 60). -/
def fetch_social_posts (env : ℕ → HttpAttempt (List Post)) : Except PyErr (List Post) :=
  retryCall fetch_social_posts_body env 2 0

/-- `fetch_topic_summary` with its decorator: 3 total attempts (line 85). -/
def fetch_topic_summary (env : ℕ → HttpAttempt TopicData) : Except PyErr (Option TopicData) :=
  retryCall fetch_topic_summary_body env 2 0

/-- Attempt environment in which the HTTP request fails on attempts 1 and 2
and succeeds with record `d` from attempt 3 on. -/
def failFailSucceed {α : Type} (d : α) : ℕ → HttpAttempt α :=
  fun i => if i < 2 then .failure else .success d

/-- C1 (refuted — evidence of the code bug): each fetch coroutine swallows
every HTTP error inside its own `except` blocks, so the tenacity wrapper
observes a normal return and performs exactly one attempt; in particular a
fetch whose request fails on attempts 1 and 2 and would succeed on
attempt 3 returns the absent value for its kind, not the successful
record. -/
theorem fetch_single_attempt :
    (∀ env, fetch_coin_data env = fetch_coin_data_body (env 0)) ∧
    (∀ env, fetch_social_posts env = fetch_social_posts_body (env 0)) ∧
    (∀ env, fetch_topic_summary env = fetch_topic_summary_body (env 0)) ∧
    (∀ d : MarketData, fetch_coin_data (failFailSucceed d) = .ok none) ∧
    (∀ ps : List Post, fetch_social_posts (failFailSucceed ps) = .ok []) ∧
    (∀ t : TopicData, fetch_topic_summary (failFailSucceed t) = .ok none) := by
  refine ⟨?_, ?_, ?_, fun d => rfl, fun ps => rfl, fun t => rfl⟩ <;> intro env
  · cases h : env 0 <;>
      simp [fetch_coin_data, retryCall, fetch_coin_data_body, h]
  · cases h : env 0 <;>
      simp [fetch_social_posts, retryCall, fetch_social_posts_body, h]
  · cases h : env 0 <;>
      simp [fetch_topic_summary, retryCall, fetch_topic_summary_body, h]

/-- Python truthiness of an optional string field (`if post.get(k):`):
missing and empty are both falsy. -/
def truthyStr : Option PyStr → Bool
  | none => false
  | some s => !s.isEmpty

/-- Python truthiness of an optional scalar (`if post.get("sentiment"):`):
missing, zero and the empty string are falsy. -/
def truthyVal : Option PyValue → Bool
  | none => false
  | some (.num q) => q != 0
  | some (.str s) => !s.isEmpty

/-- Display form of a scalar interpolated into an f-string.  (Python's
exact numeral formatting is irrelevant to the claims; rationals are
rendered by `toString`.) -/
def pyStrOfVal : PyValue → PyStr
  | .num q => (toString q).data
  | .str s => s

/-- The `parts` list built by `prepare_post_for_embedding`
(lines 107-122): symbol context always; title, body (truncated to 500),
sentiment and post type only when truthy. -/
def embeddingParts (post : Post) (symbol : PyStr) : List PyStr :=
  ["Symbol: ".data ++ symbol]
  ++ (if truthyStr post.title then ["Title: ".data ++ post.title.getD []] else [])
  ++ (if truthyStr post.body then ["Content: ".data ++ (post.body.getD []).take 500] else [])
  ++ (if truthyVal post.sentiment then
        ["Sentiment: ".data ++ pyStrOfVal ((post.sentiment).getD (.num 0))] else [])
  ++ (if truthyStr post.post_type then ["Type: ".data ++ post.post_type.getD []] else [])

/-- `prepare_post_for_embedding` (lines 104-124): `" | ".join(parts)`. -/
def prepare_post_for_embedding (post : Post) (symbol : PyStr) : PyStr :=
  List.intercalate " | ".data (embeddingParts post symbol)

/-- `str(post.get("id", ""))` (line 137). -/
def postIdStr (post : Post) : PyStr := post.id.getD []

/-- `float(post.get("sentiment", 3.0))` (line 153). -/
def sentimentField (post : Post) : Except PyErr ℚ :=
  match post.sentiment with
  | none => .ok 3
  | some v => pyFloat v

/-- `int(post.get("interactions", 0))` (line 154). -/
def interactionsField (post : Post) : Except PyErr ℤ :=
  match post.interactions with
  | none => .ok 0
  | some v => pyInt v

/-- The stored payload dict of a post (lines 146-167). -/
structure PostPayload where
  symbol : PyStr
  post_id : PyStr
  post_type : PyStr
  title : PyStr
  body : PyStr
  sentiment : ℚ
  interactions : ℤ
  creator_name : PyStr
  post_created : PyStr
  market_price : Option ℚ
  market_cap : Option ℚ
  percent_change_24h : Option ℚ
  ingested_at : PyStr
  source : PyStr
  embedding_text : PyStr
deriving DecidableEq

/-- Building one post payload (lines 142-167): the embedding text, then
the payload dict; `float` on a non-numeric sentiment or `int` on a
non-numeric interaction count raises out of the construction.  `now`
stands in for `datetime.now(timezone.utc).isoformat()`. -/
def buildPostPayload (post : Post) (symbol : PyStr) (market : Option MarketData)
    (now : PyStr) : Except PyErr PostPayload :=
  match sentimentField post, interactionsField post with
  | .error e, _ => .error e
  | .ok _, .error e => .error e
  | .ok sent, .ok inter =>
    Except.ok
    { symbol := symbol
      post_id := postIdStr post
      post_type := post.post_type.getD "unknown".data
      title := post.title.getD []
      body := (post.body.getD []).take 1000
      sentiment := sent
      interactions := inter
      creator_name := post.creator_name.getD []
      post_created := post.created.getD []
      market_price := market.bind (fun m => m.price)
      market_cap := market.bind (fun m => m.market_cap)
      percent_change_24h := market.bind (fun m => m.percent_change_24h)
      ingested_at := now
      source := "lunarcrush".data
      embedding_text := (prepare_post_for_embedding post symbol).take 500 }

/-- The process-lifetime deduplication set `self.processed_posts`,
modelled as a duplicate-free insertion list. -/
abbrev Cache := List PyStr

/-- `self.processed_posts.add(post_id)` (line 170). -/
def cacheInsert (pid : PyStr) (c : Cache) : Cache :=
  if pid ∈ c then c else c ++ [pid]

/-- The `for post in posts` loop of `process_and_store_posts`
(lines 135-170): skip ids already in the cache, otherwise build text and
payload and mark the id seen; a payload error propagates. -/
def processPostsLoop (symbol : PyStr) (market : Option MarketData) (now : PyStr) :
    Cache → List Post → Except PyErr (List PyStr × List PostPayload × Cache)
  | c, [] => .ok ([], [], c)
  | c, post :: rest =>
    if postIdStr post ∈ c then processPostsLoop symbol market now c rest
    else
      match buildPostPayload post symbol market now with
      | .error e => .error e
      | .ok payload =>
        match processPostsLoop symbol market now (cacheInsert (postIdStr post) c) rest with
        | .error e => .error e
        | .ok (texts, payloads, cFinal) =>
          .ok (prepare_post_for_embedding post symbol :: texts,
            payload :: payloads, cFinal)

/-- One embedding vector; the encoder itself is an external provider and
enters the model as a function parameter. -/
abbrev Embedding := List ℚ

/-- A point upserted into the vector store: embedding plus payload (the
random uuid4 point id carries no information). -/
structure StoredPoint where
  vector : Embedding
  payload : PostPayload
deriving DecidableEq

/-- `process_and_store_posts` (lines 126-201): early return on an empty
batch, the dedup/build loop, batch encoding, point construction, and the
upsert whose failure is caught and logged (lines 193-201).  `upsertOk`
says whether the store write succeeds; `store` is the collection state. -/
def process_and_store_posts (encode : List PyStr → List Embedding) (upsertOk : Bool)
    (symbol : PyStr) (market : Option MarketData) (now : PyStr)
    (c : Cache) (store : List StoredPoint) (posts : List Post) :
    Except PyErr (Cache × List StoredPoint) :=
  if posts.isEmpty then .ok (c, store)
  else
    match processPostsLoop symbol market now c posts with
    | .error e => .error e
    | .ok (texts, payloads, cFinal) =>
      if texts.isEmpty then .ok (cFinal, store)
      else
        let points := ((encode texts).zip payloads).map
          (fun ep => StoredPoint.mk ep.1 ep.2)
        if upsertOk then .ok (cFinal, store ++ points)
        else .ok (cFinal, store)

/-- The sentiment stored by a successful payload build, `none` when the
build raised. -/
def payloadSentiment : Except PyErr PostPayload → Option ℚ
  | .ok p => some p.sentiment
  | .error _ => none

/-- Concrete post whose raw sentiment is the non-numeric string `n/a`. -/
def naPost : Post := { sentiment := some (.str "n/a".data) }

/-- C2 counterexample: a non-numeric raw sentiment is not defaulted —
`float("n/a")` raises `ValueError`, the payload build fails, and the error
propagates out of the post-processing loop. -/
theorem nonnumeric_sentiment_raises :
    buildPostPayload naPost "BTC".data none [] = .error .valueError ∧
    processPostsLoop "BTC".data none [] [] [naPost] = .error .valueError :=
  ⟨rfl, rfl⟩

/-- C2 (amended): an absent raw sentiment defaults to 3.0 and the payload
build succeeds (whenever the interaction count converts); only a
non-numeric raw sentiment makes `float()` raise and the failure propagate
out of post processing. -/
theorem absent_sentiment_defaults (post : Post) (symbol now : PyStr)
    (market : Option MarketData) (habs : post.sentiment = none)
    (k : ℤ) (hk : interactionsField post = .ok k) :
    payloadSentiment (buildPostPayload post symbol market now) = some 3 := by
  have h1 : sentimentField post = .ok 3 := by
    unfold sentimentField; rw [habs]
  simp [buildPostPayload, h1, hk, payloadSentiment]

/-- Witness for the amended C2 theorem on a field-free post. -/
theorem absent_sentiment_defaults_witness :
    payloadSentiment (buildPostPayload {} "BTC".data none []) = some 3 :=
  absent_sentiment_defaults {} "BTC".data [] none rfl 0 rfl

lemma mem_cacheInsert_self (pid : PyStr) (c : Cache) : pid ∈ cacheInsert pid c := by
  unfold cacheInsert; split_ifs with h
  · exact h
  · simp

lemma mem_cacheInsert_of_mem (pid x : PyStr) (c : Cache) (h : x ∈ c) :
    x ∈ cacheInsert pid c := by
  unfold cacheInsert; split_ifs
  · exact h
  · simp [h]

/-- C6: a post whose id is already cached is skipped before any embedding
input, payload, or stored point is produced: its presence changes neither
the loop result nor the whole `process_and_store_posts` result. -/
theorem seen_post_skipped (p : Post) (c : Cache) (h : postIdStr p ∈ c) :
    (∀ symbol market now rest,
      processPostsLoop symbol market now c (p :: rest) =
        processPostsLoop symbol market now c rest) ∧
    (∀ encode upsertOk symbol market now store rest,
      process_and_store_posts encode upsertOk symbol market now c store (p :: rest) =
        process_and_store_posts encode upsertOk symbol market now c store rest) := by
  have hloop : ∀ symbol market now rest,
      processPostsLoop symbol market now c (p :: rest) =
        processPostsLoop symbol market now c rest := by
    intro symbol market now rest
    simp [processPostsLoop, h]
  refine ⟨hloop, ?_⟩
  intro encode upsertOk symbol market now store rest
  cases rest with
  | nil =>
    unfold process_and_store_posts
    rw [hloop]
    simp [processPostsLoop]
  | cons q qs =>
    unfold process_and_store_posts
    rw [hloop]
    simp only [List.isEmpty_cons]

/-- Concrete already-seen post for the C6 witness. -/
def seenPost : Post := { id := some "x1".data }

/-- Witness for C6: with id `x1` cached, the post is a no-op for the loop
and for the full processing function. -/
theorem seen_post_skipped_witness :
    processPostsLoop "BTC".data none [] ["x1".data] [seenPost] =
      processPostsLoop "BTC".data none [] ["x1".data] [] ∧
    process_and_store_posts (fun ts => ts.map (fun _ => [1])) true "BTC".data none []
        ["x1".data] [] [seenPost] =
      process_and_store_posts (fun ts => ts.map (fun _ => [1])) true "BTC".data none []
        ["x1".data] [] [] :=
  ⟨(seen_post_skipped seenPost ["x1".data] (by decide)).1 "BTC".data none [] [],
   (seen_post_skipped seenPost ["x1".data] (by decide)).2
     (fun ts => ts.map (fun _ => [1])) true "BTC".data none [] [] []⟩

/-- C8: the Content segment of the embedding text carries at most the
first 500 characters of the post body (a 600-character body is cut to
500); the stored body field is the body truncated to 1000 characters; the
stored embedding_text field is the embedding text truncated to 500. -/
theorem truncation_limits (post : Post) (symbol now : PyStr)
    (market : Option MarketData) :
    (∀ b, post.body = some b → b.isEmpty = false →
      ("Content: ".data ++ b.take 500) ∈ embeddingParts post symbol ∧
      (b.take 500).length ≤ 500 ∧
      (b.length = 600 → (b.take 500).length = 500)) ∧
    (∀ payload, buildPostPayload post symbol market now = .ok payload →
      payload.body = (post.body.getD []).take 1000 ∧
      payload.body.length ≤ 1000 ∧
      payload.embedding_text = (prepare_post_for_embedding post symbol).take 500 ∧
      payload.embedding_text.length ≤ 500) := by
  constructor
  · intro b hb hbe
    refine ⟨?_, ?_, ?_⟩
    · simp [embeddingParts, truthyStr, hb, hbe]
    · simp only [List.length_take]; omega
    · intro h600; simp only [List.length_take, h600]; omega
  · intro payload hok
    cases hs : sentimentField post with
    | error e => simp [buildPostPayload, hs] at hok
    | ok sent =>
      cases hi : interactionsField post with
      | error e => simp [buildPostPayload, hs, hi] at hok
      | ok inter =>
        simp only [buildPostPayload, hs, hi, Except.ok.injEq] at hok
        subst hok
        refine ⟨rfl, ?_, rfl, ?_⟩
        · simp only [List.length_take]; omega
        · simp only [List.length_take]; omega

/-- Concrete post with a 600-character body for the C8 witness. -/
def longPost : Post := { body := some (List.replicate 600 'x') }

/-- The payload `process_and_store_posts` builds for `longPost`. -/
def longPostPayload : PostPayload :=
  { symbol := "BTC".data
    post_id := []
    post_type := "unknown".data
    title := []
    body := (List.replicate 600 'x').take 1000
    sentiment := 3
    interactions := 0
    creator_name := []
    post_created := []
    market_price := none
    market_cap := none
    percent_change_24h := none
    ingested_at := []
    source := "lunarcrush".data
    embedding_text := (prepare_post_for_embedding longPost "BTC".data).take 500 }

/-- Witness for C8 on a 600-character body. -/
theorem truncation_limits_witness :
    ("Content: ".data ++ (List.replicate 600 'x').take 500) ∈
      embeddingParts longPost "BTC".data ∧
    ((List.replicate 600 'x').take 500).length = 500 ∧
    longPostPayload.body.length ≤ 1000 ∧
    longPostPayload.embedding_text.length ≤ 500 := by
  have h := truncation_limits longPost "BTC".data [] none
  have h1 := h.1 (List.replicate 600 'x') rfl rfl
  have h2 := h.2 longPostPayload rfl
  exact ⟨h1.1, h1.2.2 (List.length_replicate 600 'x'), h2.2.1, h2.2.2.2⟩

/-- A successful pass of the dedup/build loop grows the cache
monotonically, marks every processed post id seen, and produces as many
texts as payloads. -/
lemma processPostsLoop_spec (symbol : PyStr) (market : Option MarketData) (now : PyStr) :
    ∀ (posts : List Post) (c : Cache) (texts : List PyStr)
      (payloads : List PostPayload) (cFinal : Cache),
      processPostsLoop symbol market now c posts = .ok (texts, payloads, cFinal) →
      (∀ x ∈ c, x ∈ cFinal) ∧ (∀ p ∈ posts, postIdStr p ∈ cFinal) ∧
        texts.length = payloads.length := by
  intro posts
  induction posts with
  | nil =>
    intro c texts payloads cFinal hok
    simp only [processPostsLoop, Except.ok.injEq, Prod.mk.injEq] at hok
    obtain ⟨ht, hp, hc⟩ := hok
    subst ht; subst hp; subst hc
    exact ⟨fun x hx => hx, by simp, rfl⟩
  | cons p rest ih =>
    intro c texts payloads cFinal hok
    by_cases hmem : postIdStr p ∈ c
    · rw [processPostsLoop, if_pos hmem] at hok
      obtain ⟨h1, h2, h3⟩ := ih c texts payloads cFinal hok
      refine ⟨h1, ?_, h3⟩
      intro q hq
      rcases List.mem_cons.mp hq with hq | hq
      · subst hq; exact h1 _ hmem
      · exact h2 q hq
    · rw [processPostsLoop, if_neg hmem] at hok
      cases hb : buildPostPayload p symbol market now with
      | error e => rw [hb] at hok; simp at hok
      | ok payload =>
        rw [hb] at hok
        cases hr : processPostsLoop symbol market now (cacheInsert (postIdStr p) c) rest with
        | error e => rw [hr] at hok; simp at hok
        | ok tr =>
          obtain ⟨ts, ps, cf⟩ := tr
          rw [hr] at hok
          simp only [Except.ok.injEq, Prod.mk.injEq] at hok
          obtain ⟨htx, hpl, hcf⟩ := hok
          subst htx; subst hpl; subst hcf
          obtain ⟨h1, h2, h3⟩ := ih _ ts ps cf hr
          refine ⟨?_, ?_, by simp [h3]⟩
          · intro x hx
            exact h1 x (mem_cacheInsert_of_mem _ x c hx)
          · intro q hq
            rcases List.mem_cons.mp hq with hq | hq
            · subst hq; exact h1 _ (mem_cacheInsert_self _ c)
            · exact h2 q hq

/-- C9: post ids enter the cache during the loop, before the upsert is
attempted; a failing upsert still returns normally with exactly the same
final cache as a successful one (no rollback) and stores nothing; every
processed post id is in that final cache, so the same posts are skipped by
any later processing within the process lifetime. -/
theorem upsert_failure_keeps_cache (encode : List PyStr → List Embedding)
    (symbol : PyStr) (market : Option MarketData) (now : PyStr)
    (c : Cache) (store : List StoredPoint) (posts : List Post)
    (texts : List PyStr) (payloads : List PostPayload) (cFinal : Cache)
    (hok : processPostsLoop symbol market now c posts = .ok (texts, payloads, cFinal)) :
    process_and_store_posts encode false symbol market now c store posts =
      .ok (cFinal, store) ∧
    process_and_store_posts encode true symbol market now c store posts =
      .ok (cFinal, store ++
        ((encode texts).zip payloads).map (fun ep => StoredPoint.mk ep.1 ep.2)) ∧
    (∀ p ∈ posts, postIdStr p ∈ cFinal) ∧
    (∀ p ∈ posts, ∀ rest, processPostsLoop symbol market now cFinal (p :: rest) =
      processPostsLoop symbol market now cFinal rest) := by
  obtain ⟨hmono, hseen, hlen⟩ := processPostsLoop_spec symbol market now posts c
    texts payloads cFinal hok
  have hskip : ∀ p ∈ posts, ∀ rest,
      processPostsLoop symbol market now cFinal (p :: rest) =
        processPostsLoop symbol market now cFinal rest := by
    intro p hp rest
    simp [processPostsLoop, hseen p hp]
  cases posts with
  | nil =>
    simp only [processPostsLoop, Except.ok.injEq, Prod.mk.injEq] at hok
    obtain ⟨ht, hp, hc⟩ := hok
    subst ht; subst hp; subst hc
    refine ⟨rfl, ?_, hseen, hskip⟩
    simp [process_and_store_posts]
  | cons p rest =>
    cases htx : texts with
    | nil =>
      have hpl : payloads = [] := by
        cases payloads with
        | nil => rfl
        | cons a l => rw [htx] at hlen; simp at hlen
      subst htx; subst hpl
      refine ⟨?_, ?_, hseen, hskip⟩ <;>
        simp [process_and_store_posts, hok]
    | cons t ts =>
      subst htx
      refine ⟨?_, ?_, hseen, hskip⟩ <;>
        simp [process_and_store_posts, hok]

/-- Concrete new post for the C9 witness. -/
def freshPost : Post := { id := some "a1".data }

/-- The payload built for `freshPost`. -/
def freshPostPayload : PostPayload :=
  { symbol := "BTC".data
    post_id := "a1".data
    post_type := "unknown".data
    title := []
    body := []
    sentiment := 3
    interactions := 0
    creator_name := []
    post_created := []
    market_price := none
    market_cap := none
    percent_change_24h := none
    ingested_at := []
    source := "lunarcrush".data
    embedding_text := (prepare_post_for_embedding freshPost "BTC".data).take 500 }

/-- Witness for C9: one fresh post, upsert failing — normal return, id
cached, nothing stored, and the post is skipped afterwards. -/
theorem upsert_failure_keeps_cache_witness :
    process_and_store_posts (fun ts => ts.map (fun _ => [1])) false "BTC".data none []
      [] [] [freshPost] = .ok (["a1".data], []) ∧
    postIdStr freshPost ∈ ["a1".data] ∧
    processPostsLoop "BTC".data none [] ["a1".data] [freshPost] =
      processPostsLoop "BTC".data none [] ["a1".data] [] := by
  have h := upsert_failure_keeps_cache (fun ts => ts.map (fun _ => [1])) "BTC".data
    none [] [] [] [freshPost] [prepare_post_for_embedding freshPost "BTC".data]
    [freshPostPayload] ["a1".data] rfl
  exact ⟨h.1, h.2.2.1 freshPost (by simp), h.2.2.2 freshPost (by simp) []⟩

/-- C10: a post lacking an id deduplicates under the single empty-string
key: its id key is the empty string; while the empty key is uncached such
a post is embedded and stored and the empty key becomes cached; once the
empty key is cached, every id-less post is skipped, for any symbol. -/
theorem idless_posts_share_empty_key :
    (∀ p : Post, p.id = none → postIdStr p = []) ∧
    (∀ (p : Post) (c : Cache), p.id = none → [] ∉ c →
      ∀ symbol market now payload,
        buildPostPayload p symbol market now = .ok payload →
        processPostsLoop symbol market now c [p] =
          .ok ([prepare_post_for_embedding p symbol], [payload], cacheInsert [] c) ∧
        [] ∈ cacheInsert [] c) ∧
    (∀ (q : Post) (c : Cache), q.id = none → [] ∈ c →
      ∀ symbol market now rest,
        processPostsLoop symbol market now c (q :: rest) =
          processPostsLoop symbol market now c rest) := by
  refine ⟨?_, ?_, ?_⟩
  · intro p hp; simp [postIdStr, hp]
  · intro p c hp hnot symbol market now payload hok
    have hpid : postIdStr p = [] := by simp [postIdStr, hp]
    constructor
    · rw [processPostsLoop, hpid, if_neg hnot, hok]
      simp [processPostsLoop]
    · exact mem_cacheInsert_self [] c
  · intro q c hq hmem symbol market now rest
    have hpid : postIdStr q = [] := by simp [postIdStr, hq]
    rw [processPostsLoop, hpid, if_pos hmem]

/-- The payload built for an id-less, otherwise empty post. -/
def emptyPostPayload : PostPayload :=
  { symbol := "BTC".data
    post_id := []
    post_type := "unknown".data
    title := []
    body := []
    sentiment := 3
    interactions := 0
    creator_name := []
    post_created := []
    market_price := none
    market_cap := none
    percent_change_24h := none
    ingested_at := []
    source := "lunarcrush".data
    embedding_text := (prepare_post_for_embedding ({} : Post) "BTC".data).take 500 }

/-- Witness for C10: the first id-less post (symbol BTC) is processed and
caches the empty key; a second id-less post is then skipped even under a
different symbol (ETH). -/
theorem idless_posts_share_empty_key_witness :
    postIdStr {} = [] ∧
    processPostsLoop "BTC".data none [] [] [{}] =
      .ok ([prepare_post_for_embedding ({} : Post) "BTC".data], [emptyPostPayload],
        cacheInsert [] []) ∧
    processPostsLoop "ETH".data none [] (cacheInsert [] []) [{}] =
      processPostsLoop "ETH".data none [] (cacheInsert [] []) [] := by
  refine ⟨idless_posts_share_empty_key.1 {} rfl, ?_, ?_⟩
  · exact (idless_posts_share_empty_key.2.1 {} [] rfl (by simp) "BTC".data none []
      emptyPostPayload rfl).1
  · exact idless_posts_share_empty_key.2.2 {} (cacheInsert [] []) rfl
      (mem_cacheInsert_self [] []) "ETH".data none [] []

/-- An orchestrator event: launching one wave of concurrently gathered
symbol tasks (`asyncio.gather` over the batch — the gather returns only
when every task of the batch has completed) or sleeping between waves. -/
inductive OrchEvent where
  | wave (batch : List PyStr)
  | sleep (secs : ℕ)
deriving DecidableEq

/-- The `for i in range(0, len(symbols), 3)` loop of `ingest_all_symbols`
(lines 321-328), phrased on the not-yet-processed suffix: emit the wave
`symbols[i:i+3]`, then `await asyncio.sleep(2)` whenever `i + 3 <
len(symbols)`.  The fuel argument (initially the list length) only
realises termination and never runs out. -/
def waveLoopFuel : ℕ → List PyStr → List OrchEvent
  | 0, _ => []
  | _ + 1, [] => []
  | fuel + 1, s :: rest =>
    OrchEvent.wave ((s :: rest).take 3) ::
      (if 3 < (s :: rest).length
       then OrchEvent.sleep 2 :: waveLoopFuel fuel ((s :: rest).drop 3)
       else [])

/-- The event trace of the wave loop over a symbol list. -/
def waveLoop (symbols : List PyStr) : List OrchEvent :=
  waveLoopFuel symbols.length symbols

/-- `settings.DEFAULT_SYMBOLS` (config.py line 42). -/
def DEFAULT_SYMBOLS : List PyStr :=
  ["BTC".data, "ETH".data, "SOL".data, "AVAX".data, "MATIC".data]

/-- `ingest_all_symbols` (lines 314-330): `symbols = symbols or
settings.DEFAULT_SYMBOLS` (both `None` and the empty list are falsy),
then the wave loop. -/
def ingest_all_symbols (symbols : Option (List PyStr)) : List OrchEvent :=
  waveLoop
    (match symbols with
     | none => DEFAULT_SYMBOLS
     | some l => if l.isEmpty then DEFAULT_SYMBOLS else l)

/-- The wave batches of an event trace, in order. -/
def waveBatches (evs : List OrchEvent) : List (List PyStr) :=
  evs.filterMap (fun e => match e with | .wave b => some b | .sleep _ => none)

/-- The trace shape the spec describes: the given waves in order, every
two consecutive waves separated by exactly one 2-second sleep. -/
def interleaveSleeps : List (List PyStr) → List OrchEvent
  | [] => []
  | [b] => [OrchEvent.wave b]
  | b :: b2 :: rest =>
    OrchEvent.wave b :: OrchEvent.sleep 2 :: interleaveSleeps (b2 :: rest)

lemma waveLoopFuel_spec (fuel : ℕ) :
    ∀ syms : List PyStr, syms.length ≤ fuel →
      ((waveBatches (waveLoopFuel fuel syms)).flatten = syms ∧
        (∀ b ∈ waveBatches (waveLoopFuel fuel syms), b ≠ [] ∧ b.length ≤ 3)) ∧
      (∀ b ∈ (waveBatches (waveLoopFuel fuel syms)).dropLast, b.length = 3) ∧
      waveLoopFuel fuel syms =
        interleaveSleeps (waveBatches (waveLoopFuel fuel syms)) := by
  induction fuel with
  | zero =>
    intro syms h
    have : syms = [] := List.eq_nil_of_length_eq_zero (Nat.le_zero.mp h)
    subst this
    simp [waveLoopFuel, waveBatches, interleaveSleeps]
  | succ fuel ih =>
    intro syms h
    cases syms with
    | nil => simp [waveLoopFuel, waveBatches, interleaveSleeps]
    | cons s rest =>
      by_cases h3 : 3 < (s :: rest).length
      · simp only [waveLoopFuel, if_pos h3]
        have hlen : ((s :: rest).drop 3).length ≤ fuel := by
          rw [List.length_drop]
          simp only [List.length_cons] at h h3 ⊢
          omega
        obtain ⟨⟨ihA, ihB⟩, ihC, ihD⟩ := ih _ hlen
        have hBatches :
            waveBatches (OrchEvent.wave ((s :: rest).take 3) :: OrchEvent.sleep 2 ::
              waveLoopFuel fuel ((s :: rest).drop 3)) =
            (s :: rest).take 3 :: waveBatches (waveLoopFuel fuel ((s :: rest).drop 3)) := by
          simp [waveBatches]
        rw [hBatches]
        have hbsne : waveBatches (waveLoopFuel fuel ((s :: rest).drop 3)) ≠ [] := by
          intro hcon
          rw [hcon] at ihA
          have : ((s :: rest).drop 3).length = 0 := by rw [← ihA]; simp
          rw [List.length_drop] at this
          simp only [List.length_cons] at this h3
          omega
        have htake3 : ((s :: rest).take 3).length = 3 := by
          rw [List.length_take]
          simp only [List.length_cons] at h3 ⊢
          omega
        refine ⟨⟨?_, ?_⟩, ?_, ?_⟩
        · simp only [List.flatten_cons, ihA]
          exact List.take_append_drop 3 (s :: rest)
        · intro b hb
          rcases List.mem_cons.mp hb with hb | hb
          · subst hb
            refine ⟨?_, by omega⟩
            intro hcon
            have := congrArg List.length hcon
            rw [htake3] at this
            simp at this
          · exact ihB b hb
        · obtain ⟨b0, bs, hbs⟩ :=
            List.exists_cons_of_ne_nil hbsne
          rw [hbs, List.dropLast_cons₂]
          intro b hb
          rcases List.mem_cons.mp hb with hb | hb
          · subst hb; exact htake3
          · exact ihC b (by rw [hbs]; exact hb)
        · obtain ⟨b0, bs, hbs⟩ := List.exists_cons_of_ne_nil hbsne
          rw [hbs, interleaveSleeps]
          rw [hbs] at ihD
          rw [ihD]
      · simp only [waveLoopFuel, if_neg h3]
        have hle : (s :: rest).length ≤ 3 := by
          simp only [List.length_cons] at h3 ⊢
          omega
        have htake : (s :: rest).take 3 = s :: rest := List.take_of_length_le hle
        rw [htake]
        have hwb : waveBatches [OrchEvent.wave (s :: rest)] = [s :: rest] := by
          simp [waveBatches]
        rw [hwb]
        refine ⟨⟨by simp, ?_⟩, by simp, by simp [interleaveSleeps]⟩
        intro b hb
        rw [List.mem_singleton] at hb
        subst hb
        exact ⟨List.cons_ne_nil s rest, hle⟩

/-- C7: the orchestrator partitions its (truthy) symbol list into
consecutive waves of at most 3 symbols whose concatenation is the list,
every wave but the last holding exactly 3; consecutive waves are separated
by exactly one 2-second sleep, and a wave's gather completes before the
next event; 7 symbols produce exactly the waves (3,3,1). -/
theorem wave_scheduling (symbols : List PyStr) (h : symbols ≠ []) :
    ingest_all_symbols (some symbols) = waveLoop symbols ∧
    (waveBatches (waveLoop symbols)).flatten = symbols ∧
    (∀ b ∈ waveBatches (waveLoop symbols), b ≠ [] ∧ b.length ≤ 3) ∧
    (∀ b ∈ (waveBatches (waveLoop symbols)).dropLast, b.length = 3) ∧
    waveLoop symbols = interleaveSleeps (waveBatches (waveLoop symbols)) ∧
    (∀ s1 s2 s3 s4 s5 s6 s7 : PyStr,
      waveLoop [s1, s2, s3, s4, s5, s6, s7] =
        [OrchEvent.wave [s1, s2, s3], OrchEvent.sleep 2,
         OrchEvent.wave [s4, s5, s6], OrchEvent.sleep 2,
         OrchEvent.wave [s7]]) := by
  obtain ⟨⟨hA, hB⟩, hC, hD⟩ := waveLoopFuel_spec symbols.length symbols le_rfl
  refine ⟨?_, hA, hB, hC, hD, fun s1 s2 s3 s4 s5 s6 s7 => rfl⟩
  cases symbols with
  | nil => exact absurd rfl h
  | cons a l => rfl

/-- Witness for C7 on the two-symbol list (BTC, ETH): a single wave,
joining back to the list. -/
theorem wave_scheduling_witness :
    ingest_all_symbols (some ["BTC".data, "ETH".data]) =
      waveLoop ["BTC".data, "ETH".data] ∧
    (waveBatches (waveLoop ["BTC".data, "ETH".data])).flatten =
      ["BTC".data, "ETH".data] := by
  have h := wave_scheduling ["BTC".data, "ETH".data] (by simp)
  exact ⟨h.1, h.2.1⟩

end MarketDB
